import Mathlib

/-!
Verification of the similarity-matching subsystem of the Image-QR-weblink
backend (`backend/server.py`) against its natural-language specification.

The development shallowly embeds the Python source:
* `calculate_similarity` models `ImageProcessor.calculate_similarity`,
  including the exact semantics of CPython's `int(s, 16)` (which, beyond
  plain hexadecimal digits, accepts surrounding ASCII whitespace, a leading
  sign, an optional `0x`/`0X` prefix, and single underscores between
  digits), of `bin(...)[2:]` (which yields `b`-prefixed digits for negative
  inputs), of `str.zfill`, and of `sum(b1 != b2 for b1, b2 in zip(..))`.
* `scan_image_for_url` models the best-match loop of the `/api/scan-image`
  handler, `link_image_to_url` models `/api/link-image`,
  `validate_and_process_image` models the ingest validator, and
  `delete_stored_image` models `/api/stored-images/{id}`.

External collaborators (libmagic sniffing, PIL decoding/normalization
together with the four imagehash computations, and hashlib's SHA-256) are
modelled as function parameters bundled in `ExternalFns`; the MongoDB
collection is modelled as a list of records in natural (insertion) order,
`find_one`/`update_one`/`delete_one` acting on the first match.
-/

/-- Value of one hexadecimal digit character (`0-9`, `a-f`, `A-F`),
as used by CPython when parsing `int(s, 16)`. -/
def hexVal (c : Char) : Option Nat :=
  if 48 ≤ c.toNat ∧ c.toNat ≤ 57 then some (c.toNat - 48)
  else if 97 ≤ c.toNat ∧ c.toNat ≤ 102 then some (c.toNat - 87)
  else if 65 ≤ c.toNat ∧ c.toNat ≤ 70 then some (c.toNat - 55)
  else none

/-- ASCII whitespace stripped by CPython around an integer literal
(space, tab, newline, carriage return, vertical tab, form feed),
identified by code point. -/
def isPySpace (c : Char) : Bool :=
  c.toNat == 32 || c.toNat == 9 || c.toNat == 10 || c.toNat == 13 ||
    c.toNat == 11 || c.toNat == 12

/-- Hex digits possibly separated by single underscores, continuing an
already-started digit run with accumulator `acc` (CPython rejects leading,
trailing, and doubled underscores). -/
def parseRest (acc : Nat) : List Char → Option Nat
  | [] => some acc
  | c :: cs =>
    if c = '_' then
      match cs with
      | [] => none
      | c2 :: cs2 =>
        match hexVal c2 with
        | none => none
        | some v => parseRest (16 * acc + v) cs2
    else
      match hexVal c with
      | none => none
      | some v => parseRest (16 * acc + v) cs

/-- A nonempty run of hex digits with single underscores between digits. -/
def parseDigits : List Char → Option Nat
  | [] => none
  | c :: cs =>
    match hexVal c with
    | none => none
    | some v => parseRest v cs

/-- Digits following a `0x`/`0X` base marker; CPython additionally allows a
single underscore directly after the marker. -/
def parseAfterBase : List Char → Option Nat
  | '_' :: rest => parseDigits rest
  | l => parseDigits l

/-- Magnitude part of a base-16 int literal: optional `0x`/`0X` marker,
then digits. -/
def parseMag : List Char → Option Nat
  | [] => none
  | [c] => hexVal c
  | c1 :: c2 :: rest =>
    if c1 = '0' ∧ (c2 = 'x' ∨ c2 = 'X') then parseAfterBase rest
    else parseDigits (c1 :: c2 :: rest)

/-- Leading and trailing whitespace removed, as CPython's int parser does. -/
def stripPySpace (l : List Char) : List Char :=
  ((l.dropWhile isPySpace).reverse.dropWhile isPySpace).reverse

/-- Optional sign followed by the magnitude of a base-16 int literal. -/
def pyIntSigned : List Char → Option Int
  | [] => none
  | c :: rest =>
    if c = '+' then (parseMag rest).map (fun n => (n : Int))
    else if c = '-' then (parseMag rest).map (fun n => -(n : Int))
    else (parseMag (c :: rest)).map (fun n => (n : Int))

/-- CPython's `int(s, 16)`: `none` models a raised `ValueError`. -/
def pyIntHex (s : String) : Option Int :=
  pyIntSigned (stripPySpace s.data)

/-- Fuel-indexed binary digit expansion (most significant bit first);
the fuel argument only makes the recursion structural. -/
def natBinAux : Nat → Nat → List Char
  | 0, _ => []
  | fuel + 1, v =>
    if v = 0 then []
    else natBinAux fuel (v / 2) ++ [if v % 2 = 1 then '1' else '0']

/-- Binary digits of `v`, most significant first; empty for `v = 0`. -/
def natBin (v : Nat) : List Char :=
  natBinAux v v

/-- CPython's `bin(v)[2:]` for a nonnegative `v` (so `bin(0)[2:] = "0"`). -/
def pyBinDigits (v : Nat) : List Char :=
  if v = 0 then ['0'] else natBin v

/-- CPython's `bin(i)[2:]`: for negative `i` the sliced string keeps the
`b` of the `-0b` prefix, e.g. `bin(-6)[2:] = "b110"`. -/
def pyBin (i : Int) : List Char :=
  if i < 0 then 'b' :: natBin i.natAbs else pyBinDigits i.toNat

/-- CPython's `str.zfill(w)` on a string without a leading sign:
left-pad with `'0'` up to width `w`, never truncating. -/
def zfill (w : Nat) (l : List Char) : List Char :=
  List.replicate (w - l.length) '0' ++ l

/-- CPython's `sum(b1 != b2 for b1, b2 in zip(l1, l2))`
(the zip stops at the shorter list). -/
def countDiff : List Char → List Char → Nat
  | a :: l1, b :: l2 => (if a != b then 1 else 0) + countDiff l1 l2
  | _, _ => 0

/-- Model of `ImageProcessor.calculate_similarity` (server.py lines 107-118):
`64` when the two strings differ in length or either fails to parse with
`int(·, 16)`; otherwise the count of differing characters between the two
`zfill`-padded binary expansions. -/
def calculate_similarity (hash1 hash2 : String) : Nat :=
  if hash1.length ≠ hash2.length then 64
  else
    match pyIntHex hash1 with
    | none => 64
    | some v1 =>
      match pyIntHex hash2 with
      | none => 64
      | some v2 =>
        countDiff (zfill (hash1.length * 4) (pyBin v1))
          (zfill (hash2.length * 4) (pyBin v2))

/-- Numeric value of a string of plain hex digits (spec-side decoding of a
well-formed hash code). -/
def hexValue (s : String) : Nat :=
  s.data.foldl (fun acc c => 16 * acc + (hexVal c).getD 0) 0

/-- A well-formed hash code in the sense of the spec: a nonempty string of
plain hexadecimal digits. -/
def isHexCode (s : String) : Bool :=
  !s.data.isEmpty && s.data.all (fun c => (hexVal c).isSome)

/-- The `w`-bit big-endian binary rendering of `v` (bit `w-1` first);
`v`'s bits above position `w-1` are discarded. -/
def padBin : Nat → Nat → List Char
  | 0, _ => []
  | w + 1, v => padBin w (v / 2) ++ [if v % 2 = 1 then '1' else '0']

/-- Spec-side Hamming distance between the low `w` bits of two values:
the number of bit positions `i < w` where the two binary representations
differ. -/
def hammingW (w v1 v2 : Nat) : Nat :=
  (List.range w).countP (fun i => decide (v1 / 2 ^ i % 2 ≠ v2 / 2 ^ i % 2))

/-- The bit representation of a well-formed hash code of `n` characters:
its `4n`-bit big-endian binary rendering. -/
def codeBits (s : String) : List Char :=
  padBin (s.length * 4) (hexValue s)

/-- The distance function exactly as claim C2 words it: sentinel `64` on
differing lengths or when either code is not a plain fixed-length
hexadecimal encoding, otherwise the Hamming distance of the `4n`-bit
decodings. -/
def claimedDistance (a b : String) : Nat :=
  if a.length ≠ b.length then 64
  else if isHexCode a && isHexCode b then
    hammingW (a.length * 4) (hexValue a) (hexValue b)
  else 64


/-- A record of the `image_links` collection: the fields of the `ImageLink`
model (server.py lines 124-137) plus the `updated_at` field that
`update_one` adds on re-link.  The four hash fields are `Option`s because a
raw Mongo document need not contain them (`if algorithm in stored_image`,
line 226); records inserted by `link_image_to_url` always carry all four. -/
structure StoredImage where
  id : String
  filename : String
  url : String
  file_hash : String
  ahash : Option String
  phash : Option String
  dhash : Option String
  whash : Option String
  content_type : String
  file_size : Nat
  image_width : Nat
  image_height : Nat
  created_at : Nat
  updated_at : Option Nat
  deriving Repr, DecidableEq

/-- The query's fingerprints: `compute_hashes` (lines 89-105) always
produces all four algorithms, so the `algorithm in query_hashes` test of
line 226 is always true and the query side is total. -/
structure QueryHashes where
  ahash : String
  phash : String
  dhash : String
  whash : String
  deriving Repr, DecidableEq

/-- The algorithm iteration order of the scan loop (line 225). -/
def algoList : List String := ["dhash", "phash", "ahash", "whash"]

/-- Lookup `query_hashes[algorithm]` for the four algorithm names. -/
def queryHash (q : QueryHashes) (alg : String) : String :=
  if alg = "ahash" then q.ahash
  else if alg = "phash" then q.phash
  else if alg = "dhash" then q.dhash
  else q.whash

/-- Lookup `stored_image[algorithm]`, when the document carries that key. -/
def getHash (img : StoredImage) (alg : String) : Option String :=
  if alg = "ahash" then img.ahash
  else if alg = "phash" then img.phash
  else if alg = "dhash" then img.dhash
  else if alg = "whash" then img.whash
  else none

/-- The `distances` dict built for one candidate (lines 224-231), in
insertion order: one entry per algorithm present in the stored record,
pairing the algorithm with the distance between the query's and the
record's hash codes. -/
def candidateDistances (q : QueryHashes) (img : StoredImage) : List (String × Nat) :=
  algoList.filterMap (fun alg =>
    (getHash img alg).map (fun h2 => (alg, calculate_similarity (queryHash q alg) h2)))

/-- Model of `min(distances.values())`, guarded by `if distances:` (lines 233-235). -/
def candMin (q : QueryHashes) (img : StoredImage) : Option Nat :=
  match candidateDistances q img with
  | [] => none
  | p :: rest => some ((rest.map Prod.snd).foldl min p.2)

/-- Model of `min(distances, key=distances.get)` (line 245): the first algorithm
attaining the minimal distance `m`, in dict insertion order. -/
def argminAlg (ds : List (String × Nat)) (m : Nat) : String :=
  match ds.find? (fun p => p.2 == m) with
  | some p => p.1
  | none => ""

/-- The `best_match` dict built at lines 239-247. -/
structure BestMatch where
  id : String
  filename : String
  url : String
  distance : Nat
  similarity_percentage : Int
  algorithm_used : String
  created_at : Nat
  deriving Repr, DecidableEq

/-- The `best_match` dict for a candidate at minimal distance `m`
(lines 239-247), including the `max(0, 100 - (min_distance * 10))`
similarity score. -/
def mkBestMatch (img : StoredImage) (m : Nat) (alg : String) : BestMatch :=
  { id := img.id, filename := img.filename, url := img.url, distance := m,
    similarity_percentage := max 0 (100 - (m : Int) * 10),
    algorithm_used := alg, created_at := img.created_at }

/-- Comparison `min_distance < best_distance`, where `best_distance` starts out as
`float('inf')` (line 220). -/
def beatsAcc (acc : Option (Nat × BestMatch)) (m : Nat) : Bool :=
  match acc with
  | none => true
  | some bd => decide (m < bd.1)

/-- One iteration of the scan loop (lines 222-247), carrying the pair
`(best_distance, best_match)`. -/
def scanStep (threshold : Int) (q : QueryHashes) (acc : Option (Nat × BestMatch))
    (img : StoredImage) : Option (Nat × BestMatch) :=
  match candMin q img with
  | none => acc
  | some m =>
    if (m : Int) ≤ threshold ∧ beatsAcc acc m = true then
      some (m, mkBestMatch img m (argminAlg (candidateDistances q img) m))
    else acc

/-- The whole loop of lines 222-247 over the fetched records. -/
def scanLoop (threshold : Int) (q : QueryHashes) (stored : List StoredImage) :
    Option (Nat × BestMatch) :=
  stored.foldl (scanStep threshold q) none

/-- The two response shapes of `/api/scan-image` (lines 249-265). -/
inductive ScanOutcome where
  | matchFound (m : BestMatch) (redirect_url : String) (total_stored_images : Nat)
  | noMatch (total_stored_images : Nat)
  deriving Repr, DecidableEq

/-- Model of `scan_image_for_url` (server.py lines 205-271), applied to the fetched
record list (the `to_list(1000)` page, in collection order) and the
query's fingerprints. -/
def scan_image_for_url (stored : List StoredImage) (q : QueryHashes)
    (threshold : Int) : ScanOutcome :=
  match scanLoop threshold q stored with
  | some bd => ScanOutcome.matchFound bd.2 bd.2.url stored.length
  | none => ScanOutcome.noMatch stored.length

/-- Spec-side selection (spec §4.4 steps 4-5, as quoted by claim C1): among
the candidates whose `distances` dict is nonempty, the one with the
globally smallest per-candidate minimum distance, the first-encountered
candidate winning ties. -/
def specBest (q : QueryHashes) : List StoredImage → Option (StoredImage × Nat)
  | [] => none
  | img :: rest =>
    match candMin q img, specBest q rest with
    | none, r => r
    | some d, none => some (img, d)
    | some d, some pr => if d ≤ pr.2 then some (img, d) else pr

/-- An `HTTPException`: status code and detail message. -/
structure PyError where
  status : Nat
  detail : String
  deriving Repr, DecidableEq

/-- What the PIL/imagehash pipeline yields for a decodable image: the
(post-thumbnail) dimensions and the four hex hash codes. -/
structure DecodedImage where
  width : Nat
  height : Nat
  ahash : String
  phash : String
  dhash : String
  whash : String
  deriving Repr, DecidableEq

/-- The dict returned by `validate_and_process_image` (lines 77-84),
minus the decoded pixel data itself. -/
structure ProcessResult where
  hashes : QueryHashes
  file_hash : String
  content_type : String
  file_size : Nat
  image_width : Nat
  image_height : Nat
  deriving Repr, DecidableEq

/-- The external collaborators of `ImageProcessor`: `magicSniff` models
`magic.from_buffer(content, mime=True)` with `none` for a raised
exception; `decodePipe` models `Image.open` + RGB conversion +
thumbnailing + `compute_hashes`, with `Except.error msg` for any raised
exception `e` (carrying `str(e)`); `sha256` models
`hashlib.sha256(content).hexdigest()`. -/
structure ExternalFns where
  magicSniff : List Nat → Option String
  decodePipe : List Nat → Except String DecodedImage
  sha256 : List Nat → String

/-- Constant `self.allowed_mime_types` (line 40). -/
def allowed_mime_types : List String :=
  ["image/jpeg", "image/png", "image/gif", "image/bmp", "image/webp"]

/-- Constant `self.max_file_size` (line 39): 10 MiB. -/
def max_file_size : Nat := 10 * 1024 * 1024

/-- The MIME sniffing step (lines 51-57).  The blanket `except Exception`
also catches the inner `HTTPException("Unsupported file type: ...")`, so
an unsupported type surfaces with the same 400 status and detail as a
sniffing failure. -/
def detectType (magicResult : Option String) : Except PyError String :=
  match magicResult with
  | none => Except.error ⟨400, "Unable to determine file type"⟩
  | some t =>
    if t ∈ allowed_mime_types then Except.ok t
    else Except.error ⟨400, "Unable to determine file type"⟩

/-- Model of `ImageProcessor.validate_and_process_image` (lines 42-87): size check,
MIME sniff, decode/normalize/hash, and the SHA-256 checksum computed over
the original raw `content` bytes. -/
def validate_and_process_image (env : ExternalFns) (content : List Nat) :
    Except PyError ProcessResult :=
  if content.length > max_file_size then
    Except.error ⟨413, "File too large (max 10MB)"⟩
  else
    match detectType (env.magicSniff content) with
    | Except.error e => Except.error e
    | Except.ok t =>
      match env.decodePipe content with
      | Except.error msg => Except.error ⟨400, "Invalid image file: " ++ msg⟩
      | Except.ok img =>
        Except.ok
          { hashes := ⟨img.ahash, img.phash, img.dhash, img.whash⟩,
            file_hash := env.sha256 content,
            content_type := t,
            file_size := content.length,
            image_width := img.width,
            image_height := img.height }

/-- The two success shapes of `/api/link-image` (lines 166-171 and
191-197). -/
inductive LinkOutcome where
  | created (image_id : String) (url : String) (hashes : QueryHashes)
  | updated (image_id : String) (url : String)
  deriving Repr, DecidableEq

/-- The fresh `ImageLink` document (lines 174-186); Python's
`file.filename or "unknown"` treats both a missing and an empty filename
as falsy. -/
def mkRecord (freshId : String) (filename : Option String) (url : String)
    (res : ProcessResult) (now : Nat) : StoredImage :=
  { id := freshId,
    filename := match filename with
      | none => "unknown"
      | some f => if f = "" then "unknown" else f,
    url := url,
    file_hash := res.file_hash,
    ahash := some res.hashes.ahash,
    phash := some res.hashes.phash,
    dhash := some res.hashes.dhash,
    whash := some res.hashes.whash,
    content_type := res.content_type,
    file_size := res.file_size,
    image_width := res.image_width,
    image_height := res.image_height,
    created_at := now,
    updated_at := none }

/-- Model of the `update_one` call of lines 162-165: rewrites the `url`
and `updated_at` fields of the first document matching the checksum, and
nothing else. -/
def updateFirst : List StoredImage → String → String → Nat → List StoredImage
  | [], _, _, _ => []
  | r :: rs, h, url, now =>
    if r.file_hash = h then { r with url := url, updated_at := some now } :: rs
    else r :: updateFirst rs h url now

/-- Model of `link_image_to_url` (server.py lines 148-203).  `freshId` models
`uuid.uuid4()` and `now` models `datetime.utcnow()`.  Returns the
HTTP-level outcome together with the collection after the call (unchanged
when validation fails). -/
def link_image_to_url (env : ExternalFns) (freshId : String) (now : Nat)
    (store : List StoredImage) (url : String) (filename : Option String)
    (content : List Nat) : Except PyError LinkOutcome × List StoredImage :=
  match validate_and_process_image env content with
  | Except.error e => (Except.error e, store)
  | Except.ok res =>
    match store.find? (fun r => r.file_hash == res.file_hash) with
    | some existing =>
      (Except.ok (LinkOutcome.updated existing.id url),
        updateFirst store res.file_hash url now)
    | none =>
      (Except.ok (LinkOutcome.created freshId url res.hashes),
        store ++ [mkRecord freshId filename url res now])

/-- Model of `delete_stored_image` (lines 301-316): `delete_one` there
removes the first matching document; 404 when `deleted_count == 0`. -/
def delete_stored_image (store : List StoredImage) (image_id : String) :
    Except PyError Unit × List StoredImage :=
  if store.any (fun r => r.id == image_id) then
    (Except.ok (), store.eraseP (fun r => r.id == image_id))
  else
    (Except.error ⟨404, "Image not found"⟩, store)

/-- Model of `get_stored_images` (lines 273-299): a read-only listing of id,
filename and url; it never modifies the collection. -/
def get_stored_images (store : List StoredImage) :
    Nat × List (String × String × String) :=
  (store.length, store.map (fun img => (img.id, img.filename, img.url)))

/-- The collection states reachable from the empty collection by any
sequence of link and delete calls (each call with its own external
functions, fresh id, timestamp, url, filename and bytes, succeeding or
failing; `scan_image_for_url` and `get_stored_images` take the collection
as a plain input and return no collection, so they cannot modify it and
need no constructor). -/
inductive Reachable : List StoredImage → Prop where
  | empty : Reachable []
  | link (env : ExternalFns) (freshId : String) (now : Nat) (s : List StoredImage)
      (url : String) (filename : Option String) (content : List Nat)
      (out : Except PyError LinkOutcome) (s2 : List StoredImage) :
      Reachable s →
      link_image_to_url env freshId now s url filename content = (out, s2) →
      Reachable s2
  | del (s : List StoredImage) (image_id : String)
      (out : Except PyError Unit) (s2 : List StoredImage) :
      Reachable s → delete_stored_image s image_id = (out, s2) → Reachable s2

/-- Concrete external functions used by the closed witnesses. -/
def env0 : ExternalFns :=
  { magicSniff := fun _ => some "image/png",
    decodePipe := fun _ => Except.ok ⟨4, 4, "0f", "1f", "2f", "3f"⟩,
    sha256 := fun c => "h" ++ toString c.length }

/-- Concrete external functions whose MIME sniffing raises. -/
def envBad : ExternalFns :=
  { magicSniff := fun _ => none,
    decodePipe := fun _ => Except.ok ⟨4, 4, "0f", "1f", "2f", "3f"⟩,
    sha256 := fun c => "h" ++ toString c.length }

/-- Concrete raw bytes used by the closed witnesses. -/
def content0 : List Nat := [1, 2]

/-- What `validate_and_process_image env0 content0` returns. -/
def res0 : ProcessResult :=
  { hashes := ⟨"0f", "1f", "2f", "3f"⟩,
    file_hash := "h2",
    content_type := "image/png",
    file_size := 2,
    image_width := 4,
    image_height := 4 }

/-- Concrete query fingerprints used by the closed witnesses. -/
def q0 : QueryHashes := ⟨"00", "00", "00", "00"⟩

/-- A concrete stored record at distance 0 from `q0`. -/
def img0 : StoredImage :=
  { id := "i0", filename := "f0", url := "u0", file_hash := "h9",
    ahash := some "00", phash := some "00", dhash := some "00",
    whash := some "00", content_type := "image/png", file_size := 2,
    image_width := 4, image_height := 4, created_at := 1,
    updated_at := none }


/-- Spec-side combination of an already-accumulated best with the best
candidate of the remaining records, mirroring the threshold test and the
strict `<` comparison of line 237. -/
def mergeBest (t : Int) (q : QueryHashes) (acc : Option (Nat × BestMatch)) :
    Option (StoredImage × Nat) → Option (Nat × BestMatch)
  | none => acc
  | some pr =>
    if (pr.2 : Int) ≤ t ∧ beatsAcc acc pr.2 = true then
      some (pr.2, mkBestMatch pr.1 pr.2 (argminAlg (candidateDistances q pr.1) pr.2))
    else acc

/-- The outcome of the scan exactly as claim C1 words it: take the
candidate selected by `specBest`; when its minimum distance is within the
(inclusive) threshold the scan reports it as the match, otherwise—and when
no candidate has any comparable algorithm—the scan reports no match. -/
def specOutcome (t : Int) (q : QueryHashes) (stored : List StoredImage) : ScanOutcome :=
  match specBest q stored with
  | some pr =>
    if (pr.2 : Int) ≤ t then
      ScanOutcome.matchFound
        (mkBestMatch pr.1 pr.2 (argminAlg (candidateDistances q pr.1) pr.2))
        pr.1.url stored.length
    else ScanOutcome.noMatch stored.length
  | none => ScanOutcome.noMatch stored.length


lemma hexVal_lt16 (c : Char) (v : Nat) (h : hexVal c = some v) : v < 16 := by
  unfold hexVal at h
  split_ifs at h with h1 h2 h3 <;> simp only [Option.some.injEq] at h <;> omega

lemma hexVal_isSome_not_space (c : Char) (h : (hexVal c).isSome) :
    isPySpace c = false := by
  have hr : (48 ≤ c.toNat ∧ c.toNat ≤ 57) ∨ (97 ≤ c.toNat ∧ c.toNat ≤ 102) ∨
      (65 ≤ c.toNat ∧ c.toNat ≤ 70) := by
    unfold hexVal at h
    split_ifs at h with h1 h2 h3
    · exact Or.inl h1
    · exact Or.inr (Or.inl h2)
    · exact Or.inr (Or.inr h3)
    · simp at h
  simp only [isPySpace, Bool.or_eq_false_iff, beq_eq_false_iff_ne, ne_eq]
  omega

lemma dropWhile_eq_self_of (l : List Char) (h : ∀ c ∈ l, isPySpace c = false) :
    l.dropWhile isPySpace = l := by
  cases l with
  | nil => rfl
  | cons c cs =>
    rw [List.dropWhile_cons, h c (List.mem_cons_self c cs)]
    simp

lemma stripPySpace_eq (l : List Char) (h : ∀ c ∈ l, isPySpace c = false) :
    stripPySpace l = l := by
  unfold stripPySpace
  rw [dropWhile_eq_self_of l h,
    dropWhile_eq_self_of l.reverse (fun c hc => h c (List.mem_reverse.mp hc)),
    List.reverse_reverse]

lemma parseRest_hex (cs : List Char) : ∀ acc : Nat,
    (∀ c ∈ cs, (hexVal c).isSome) →
    parseRest acc cs = some (cs.foldl (fun a c => 16 * a + (hexVal c).getD 0) acc) := by
  induction cs with
  | nil => intro acc _; rfl
  | cons c cs ih =>
    intro acc h
    have hc : (hexVal c).isSome := h c (List.mem_cons_self c cs)
    obtain ⟨v, hv⟩ := Option.isSome_iff_exists.mp hc
    have hcu : c ≠ '_' := by
      intro hcu
      rw [hcu, show hexVal '_' = none from by decide] at hv
      exact Option.noConfusion hv
    rw [parseRest.eq_def]
    simp only [if_neg hcu, hv]
    rw [ih (16 * acc + v) (fun d hd => h d (List.mem_cons_of_mem c hd))]
    simp [hv]

lemma parseMag_hex (c : Char) (cs : List Char)
    (h : ∀ d ∈ c :: cs, (hexVal d).isSome) :
    parseMag (c :: cs) =
      some ((c :: cs).foldl (fun a d => 16 * a + (hexVal d).getD 0) 0) := by
  have hc : (hexVal c).isSome := h c (List.mem_cons_self c cs)
  obtain ⟨v, hv⟩ := Option.isSome_iff_exists.mp hc
  cases cs with
  | nil => simp [parseMag, hv]
  | cons c2 cs2 =>
    have hc2 : (hexVal c2).isSome := h c2 (by simp)
    have hx : ¬(c = '0' ∧ (c2 = 'x' ∨ c2 = 'X')) := by
      rintro ⟨-, h2 | h2⟩ <;> rw [h2] at hc2 <;> exact absurd hc2 (by decide)
    simp only [parseMag, if_neg hx, parseDigits, hv]
    rw [parseRest_hex (c2 :: cs2) v (fun d hd => h d (List.mem_cons_of_mem c hd))]
    simp [hv]

lemma isHexCode_parts (s : String) (hs : isHexCode s = true) :
    s.data ≠ [] ∧ ∀ c ∈ s.data, (hexVal c).isSome := by
  unfold isHexCode at hs
  rw [Bool.and_eq_true, Bool.not_eq_true'] at hs
  obtain ⟨h1, h2⟩ := hs
  refine ⟨?_, fun c hc => (List.all_eq_true.mp h2) c hc⟩
  intro hnil
  rw [hnil] at h1
  simp at h1

lemma pyIntHex_hexCode (s : String) (hs : isHexCode s = true) :
    pyIntHex s = some ((hexValue s : Nat) : Int) := by
  obtain ⟨hne, hall⟩ := isHexCode_parts s hs
  have hstrip : stripPySpace s.data = s.data :=
    stripPySpace_eq s.data (fun c hc =>
      hexVal_isSome_not_space c (hall c hc))
  unfold pyIntHex
  rw [hstrip]
  cases hd : s.data with
  | nil => exact absurd hd hne
  | cons c cs =>
    have hc : (hexVal c).isSome := hall c (by rw [hd]; exact List.mem_cons_self c cs)
    have hplus : c ≠ '+' := by
      intro hcu; rw [hcu] at hc; exact absurd hc (by decide)
    have hminus : c ≠ '-' := by
      intro hcu; rw [hcu] at hc; exact absurd hc (by decide)
    rw [pyIntSigned, if_neg hplus, if_neg hminus,
      parseMag_hex c cs (fun d hd2 => hall d (by rw [hd]; exact hd2))]
    simp [hexValue, hd]

lemma foldl_hexVal_lt (l : List Char) : ∀ acc : Nat,
    (∀ c ∈ l, (hexVal c).isSome) →
    l.foldl (fun a c => 16 * a + (hexVal c).getD 0) acc < (acc + 1) * 16 ^ l.length := by
  induction l with
  | nil => intro acc _; simp
  | cons c cs ih =>
    intro acc h
    obtain ⟨v, hv⟩ := Option.isSome_iff_exists.mp (h c (List.mem_cons_self c cs))
    have hv16 : v < 16 := hexVal_lt16 c v hv
    have step := ih (16 * acc + v) (fun d hd => h d (List.mem_cons_of_mem c hd))
    have hle : (16 * acc + v + 1) * 16 ^ cs.length ≤ (acc + 1) * 16 ^ (cs.length + 1) := by
      have h2 : 16 * acc + v + 1 ≤ 16 * (acc + 1) := by omega
      calc (16 * acc + v + 1) * 16 ^ cs.length
          ≤ 16 * (acc + 1) * 16 ^ cs.length := Nat.mul_le_mul h2 (Nat.le_refl _)
        _ = (acc + 1) * 16 ^ (cs.length + 1) := by rw [pow_succ]; ring
    calc List.foldl (fun a c => 16 * a + (hexVal c).getD 0) acc (c :: cs)
        = List.foldl (fun a c => 16 * a + (hexVal c).getD 0) (16 * acc + v) cs := by
          simp [hv]
      _ < (16 * acc + v + 1) * 16 ^ cs.length := step
      _ ≤ (acc + 1) * 16 ^ (cs.length + 1) := hle
      _ = (acc + 1) * 16 ^ (c :: cs).length := by simp

lemma hexValue_lt (s : String) (hs : isHexCode s = true) :
    hexValue s < 2 ^ (s.length * 4) := by
  obtain ⟨-, hall⟩ := isHexCode_parts s hs
  have h := foldl_hexVal_lt s.data 0 hall
  have h16 : (16 : Nat) ^ s.data.length = 2 ^ (s.length * 4) := by
    have : (16 : Nat) = 2 ^ 4 := by norm_num
    rw [this, ← pow_mul, String.length, Nat.mul_comm]
  calc hexValue s < (0 + 1) * 16 ^ s.data.length := h
    _ = 2 ^ (s.length * 4) := by rw [Nat.one_mul, h16]

lemma natBinAux_mono (f1 : Nat) : ∀ f2 v : Nat, v ≤ f1 → v ≤ f2 →
    natBinAux f1 v = natBinAux f2 v := by
  induction f1 with
  | zero =>
    intro f2 v h1 _
    have : v = 0 := by omega
    subst this
    cases f2 <;> simp [natBinAux]
  | succ g1 ih =>
    intro f2 v h1 h2
    by_cases hv : v = 0
    · subst hv
      cases f2 <;> simp [natBinAux]
    · cases f2 with
      | zero => omega
      | succ g2 =>
        rw [natBinAux, natBinAux, if_neg hv, if_neg hv,
          ih g2 (v / 2) (by omega) (by omega)]

lemma natBin_eq (v : Nat) (hv : v ≠ 0) :
    natBin v = natBin (v / 2) ++ [if v % 2 = 1 then '1' else '0'] := by
  cases v with
  | zero => exact absurd rfl hv
  | succ n =>
    show natBinAux (n + 1) (n + 1) = _
    rw [natBinAux, if_neg hv,
      natBinAux_mono n ((n + 1) / 2) ((n + 1) / 2) (by omega) (by omega)]
    rfl

lemma padBin_length (w : Nat) : ∀ v : Nat, (padBin w v).length = w := by
  induction w with
  | zero => intro v; rfl
  | succ k ih => intro v; simp [padBin, ih]

lemma padBin_zero (w : Nat) : padBin w 0 = List.replicate w '0' := by
  induction w with
  | zero => rfl
  | succ k ih =>
    rw [List.replicate_succ', padBin]
    simp [ih]

lemma zfill_snoc (w : Nat) (l : List Char) (c : Char) :
    zfill (w + 1) (l ++ [c]) = zfill w l ++ [c] := by
  unfold zfill
  rw [List.length_append, List.length_singleton, Nat.succ_sub_succ, List.append_assoc]

lemma zfill_eq_padBin (w : Nat) : ∀ v : Nat, 1 ≤ w → v < 2 ^ w →
    zfill w (pyBinDigits v) = padBin w v := by
  induction w with
  | zero => intro v h _; omega
  | succ k ih =>
    intro v _ hv
    by_cases h0 : v = 0
    · subst h0
      show zfill (k + 1) ['0'] = padBin (k + 1) 0
      rw [padBin, padBin_zero]
      unfold zfill
      simp
    · by_cases h1 : v = 1
      · subst h1
        have hb : pyBinDigits 1 = ['1'] := by decide
        rw [hb, padBin]
        norm_num
        rw [padBin_zero]
        unfold zfill
        simp
      · have h2 : 2 ≤ v := by omega
        have hk1 : 1 ≤ k := by
          by_contra hk
          have : k = 0 := by omega
          subst this
          norm_num at hv
          omega
        have hdiv : v / 2 < 2 ^ k := by
          have : v < 2 ^ k * 2 := by rw [← pow_succ]; exact hv
          omega
        have hd0 : v / 2 ≠ 0 := by omega
        have hstep : pyBinDigits v = pyBinDigits (v / 2) ++ [if v % 2 = 1 then '1' else '0'] := by
          unfold pyBinDigits
          rw [if_neg h0, if_neg hd0]
          exact natBin_eq v h0
        rw [hstep, zfill_snoc, ih (v / 2) hk1 hdiv, padBin]

lemma countDiff_self (l : List Char) : countDiff l l = 0 := by
  induction l with
  | nil => rfl
  | cons a l ih => simp [countDiff, ih]

lemma countDiff_comm (l1 : List Char) : ∀ l2 : List Char,
    countDiff l1 l2 = countDiff l2 l1 := by
  induction l1 with
  | nil => intro l2; cases l2 <;> rfl
  | cons a l1 ih =>
    intro l2
    cases l2 with
    | nil => rfl
    | cons b l2 =>
      simp only [countDiff, ih l2]
      congr 1
      by_cases hab : a = b
      · subst hab; simp
      · simp [bne_iff_ne, hab, Ne.symm hab]

lemma countDiff_snoc (l1 : List Char) : ∀ (l2 : List Char) (a b : Char),
    l1.length = l2.length →
    countDiff (l1 ++ [a]) (l2 ++ [b]) = countDiff l1 l2 + (if a != b then 1 else 0) := by
  induction l1 with
  | nil =>
    intro l2 a b hlen
    cases l2 with
    | nil => simp [countDiff]
    | cons c cs => simp at hlen
  | cons c cs ih =>
    intro l2 a b hlen
    cases l2 with
    | nil => simp at hlen
    | cons d ds =>
      simp only [List.cons_append, countDiff, List.append_eq]
      rw [ih ds a b (by simpa using hlen)]
      omega

lemma countDiff_eq_zero_iff (l1 : List Char) : ∀ l2 : List Char,
    l1.length = l2.length → (countDiff l1 l2 = 0 ↔ l1 = l2) := by
  induction l1 with
  | nil =>
    intro l2 hlen
    cases l2 with
    | nil => simp [countDiff]
    | cons c cs => simp at hlen
  | cons a as ih =>
    intro l2 hlen
    cases l2 with
    | nil => simp at hlen
    | cons b bs =>
      simp only [countDiff]
      rw [Nat.add_eq_zero]
      constructor
      · rintro ⟨h1, h2⟩
        have hab : a = b := by
          by_contra hne
          simp [bne_iff_ne, hne] at h1
        have := (ih bs (by simpa using hlen)).mp h2
        rw [hab, this]
      · intro h
        injection h with h1 h2
        subst h1
        refine ⟨by simp, (ih bs (by simpa using hlen)).mpr h2⟩

lemma div_pow_succ_eq (v i : Nat) : v / 2 ^ (i + 1) % 2 = v / 2 / 2 ^ i % 2 := by
  rw [Nat.div_div_eq_div_mul, ← pow_succ']

lemma countDiff_padBin (w : Nat) : ∀ v1 v2 : Nat,
    countDiff (padBin w v1) (padBin w v2) = hammingW w v1 v2 := by
  induction w with
  | zero => intro v1 v2; rfl
  | succ k ih =>
    intro v1 v2
    rw [padBin, padBin,
      countDiff_snoc (padBin k (v1 / 2)) (padBin k (v2 / 2)) _ _
        (by rw [padBin_length, padBin_length]),
      ih (v1 / 2) (v2 / 2)]
    unfold hammingW
    rw [List.range_succ_eq_map, List.countP_cons, List.countP_map]
    have hfun : ((fun i => decide (v1 / 2 ^ i % 2 ≠ v2 / 2 ^ i % 2)) ∘ Nat.succ) =
        (fun i => decide (v1 / 2 / 2 ^ i % 2 ≠ v2 / 2 / 2 ^ i % 2)) := by
      funext i
      simp only [Function.comp]
      rw [show Nat.succ i = i + 1 from rfl, div_pow_succ_eq v1 i, div_pow_succ_eq v2 i]
    rw [hfun]
    have hlast : (if (if v1 % 2 = 1 then '1' else '0') != (if v2 % 2 = 1 then '1' else '0')
        then 1 else 0) = (if decide (v1 / 2 ^ 0 % 2 ≠ v2 / 2 ^ 0 % 2) = true then 1 else 0) := by
      rcases Nat.mod_two_eq_zero_or_one v1 with h1 | h1 <;>
        rcases Nat.mod_two_eq_zero_or_one v2 with h2 | h2 <;>
          simp [pow_zero, Nat.div_one, h1, h2]
    rw [hlast]

lemma length_pos_of_hexCode (s : String) (hs : isHexCode s = true) : 1 ≤ s.length := by
  obtain ⟨hne, -⟩ := isHexCode_parts s hs
  cases hd : s.data with
  | nil => exact absurd hd hne
  | cons c cs =>
    have : s.length = (c :: cs).length := by rw [← hd]; rfl
    simp [this]

lemma pyBin_natCast (n : Nat) : pyBin ((n : Nat) : Int) = pyBinDigits n := by
  unfold pyBin
  rw [if_neg (by omega), Int.toNat_natCast]

lemma calculate_similarity_hex (a b : String) (ha : isHexCode a = true)
    (hb : isHexCode b = true) (hlen : a.length = b.length) :
    calculate_similarity a b = countDiff (codeBits a) (codeBits b) := by
  have hpa := pyIntHex_hexCode a ha
  have hpb := pyIntHex_hexCode b hb
  unfold calculate_similarity
  rw [if_neg (show ¬a.length ≠ b.length from fun h => h hlen), hpa, hpb]
  show countDiff (zfill (a.length * 4) (pyBin ((hexValue a : Nat) : Int)))
      (zfill (b.length * 4) (pyBin ((hexValue b : Nat) : Int))) =
    countDiff (codeBits a) (codeBits b)
  rw [pyBin_natCast, pyBin_natCast,
    zfill_eq_padBin (a.length * 4) (hexValue a)
      (by have := length_pos_of_hexCode a ha; omega) (hexValue_lt a ha),
    zfill_eq_padBin (b.length * 4) (hexValue b)
      (by have := length_pos_of_hexCode b hb; omega) (hexValue_lt b hb)]
  rfl

lemma calculate_similarity_len_ne (a b : String) (h : a.length ≠ b.length) :
    calculate_similarity a b = 64 := by
  unfold calculate_similarity
  rw [if_pos h]

lemma calculate_similarity_parse_fail (a b : String)
    (h : pyIntHex a = none ∨ pyIntHex b = none) :
    calculate_similarity a b = 64 := by
  unfold calculate_similarity
  by_cases hl : a.length ≠ b.length
  · rw [if_pos hl]
  · rw [if_neg hl]
    cases h1 : pyIntHex a with
    | none => rfl
    | some v1 =>
      cases h2 : pyIntHex b with
      | none => rfl
      | some v2 =>
        rcases h with h | h
        · rw [h1] at h; exact Option.noConfusion h
        · rw [h2] at h; exact Option.noConfusion h

lemma calculate_similarity_comm (x y : String) :
    calculate_similarity x y = calculate_similarity y x := by
  unfold calculate_similarity
  by_cases hl : x.length = y.length
  · rw [if_neg (fun h => h hl), if_neg (fun h => h hl.symm)]
    cases h1 : pyIntHex x with
    | none =>
      cases h2 : pyIntHex y with
      | none => rfl
      | some v2 => rfl
    | some v1 =>
      cases h2 : pyIntHex y with
      | none => rfl
      | some v2 =>
        show countDiff (zfill (x.length * 4) (pyBin v1)) (zfill (y.length * 4) (pyBin v2)) =
          countDiff (zfill (y.length * 4) (pyBin v2)) (zfill (x.length * 4) (pyBin v1))
        exact countDiff_comm _ _
  · rw [if_pos hl, if_pos (fun h => hl h.symm)]

/-- C2 counterexample: the string `"+f"` is not a plain hexadecimal
encoding, so the claim demands the sentinel 64, but CPython's `int("+f", 16)`
accepts the sign and the code computes the ordinary character-difference
count 4 against `"ff"`. -/
theorem distance_sentinel_counterexample :
    calculate_similarity "+f" "ff" = 4 ∧ claimedDistance "+f" "ff" = 64 ∧
    calculate_similarity "+f" "ff" ≠ claimedDistance "+f" "ff" := by
  decide

/-- C2 (amended): the distance is 64 when the codes differ in character
length, and 64 when either code is rejected by CPython's `int(·, 16)`
parser; whenever both codes are plain nonempty hexadecimal digit strings of
equal length `n`, the distance is the Hamming distance between their
`4n`-bit decodings.  (Strings with signs, `0x` markers, underscores, or
surrounding whitespace are accepted by the parser and are not mapped to the
sentinel, which is where the original claim fails.) -/
theorem distance_spec_amended (a b : String) :
    (a.length ≠ b.length → calculate_similarity a b = 64) ∧
    ((pyIntHex a = none ∨ pyIntHex b = none) → calculate_similarity a b = 64) ∧
    (isHexCode a = true → isHexCode b = true → a.length = b.length →
      calculate_similarity a b = hammingW (a.length * 4) (hexValue a) (hexValue b)) := by
  refine ⟨calculate_similarity_len_ne a b, calculate_similarity_parse_fail a b, ?_⟩
  intro ha hb hlen
  rw [calculate_similarity_hex a b ha hb hlen, codeBits, codeBits, ← hlen,
    countDiff_padBin]

/-- Witness for the amended C2 statement at the concrete codes
`"0f"` and `"ff"`. -/
theorem distance_spec_amended_witness :
    isHexCode "0f" = true ∧ isHexCode "ff" = true ∧ "0f".length = "ff".length ∧
    calculate_similarity "0f" "ff" =
      hammingW ("0f".length * 4) (hexValue "0f") (hexValue "ff") :=
  ⟨by decide, by decide, by decide,
    (distance_spec_amended "0f" "ff").2.2 (by decide) (by decide) (by decide)⟩

/-- C3: on well-formed hash codes the distance function is reflexive-zero,
symmetric, non-negative, and zero exactly when the two codes have identical
bit representations. -/
theorem distance_metric_properties (x y : String)
    (hx : isHexCode x = true) (hy : isHexCode y = true) :
    calculate_similarity x x = 0 ∧
    calculate_similarity x y = calculate_similarity y x ∧
    0 ≤ calculate_similarity x y ∧
    (calculate_similarity x y = 0 ↔ codeBits x = codeBits y) := by
  refine ⟨?_, calculate_similarity_comm x y, Nat.zero_le _, ?_⟩
  · rw [calculate_similarity_hex x x hx hx rfl, countDiff_self]
  · by_cases hlen : x.length = y.length
    · rw [calculate_similarity_hex x y hx hy hlen]
      exact countDiff_eq_zero_iff (codeBits x) (codeBits y)
        (by rw [codeBits, codeBits, padBin_length, padBin_length, hlen])
    · rw [calculate_similarity_len_ne x y hlen]
      constructor
      · intro h; omega
      · intro h
        have h1 : (codeBits x).length = (codeBits y).length := by rw [h]
        rw [codeBits, codeBits, padBin_length, padBin_length] at h1
        exact absurd (by omega : x.length = y.length) hlen

/-- Witness for C3 at the concrete codes `"ab"` and `"cd"`. -/
theorem distance_metric_properties_witness :
    isHexCode "ab" = true ∧ isHexCode "cd" = true ∧
    (calculate_similarity "ab" "ab" = 0 ∧
     calculate_similarity "ab" "cd" = calculate_similarity "cd" "ab" ∧
     0 ≤ calculate_similarity "ab" "cd" ∧
     (calculate_similarity "ab" "cd" = 0 ↔ codeBits "ab" = codeBits "cd")) :=
  ⟨by decide, by decide, distance_metric_properties "ab" "cd" (by decide) (by decide)⟩

lemma beatsAcc_some_eq (bd : Nat × BestMatch) (m : Nat) :
    beatsAcc (some bd) m = decide (m < bd.1) := rfl

lemma beatsAcc_mono (acc : Option (Nat × BestMatch)) (m1 m2 : Nat) (h : m1 ≤ m2)
    (hb : beatsAcc acc m2 = true) : beatsAcc acc m1 = true := by
  cases acc with
  | none => rfl
  | some bd =>
    rw [beatsAcc_some_eq] at hb ⊢
    rw [decide_eq_true_eq] at hb
    exact decide_eq_true (by omega)

lemma mergeBest_none (t : Int) (q : QueryHashes) (acc : Option (Nat × BestMatch)) :
    mergeBest t q acc none = acc := rfl

lemma mergeBest_some (t : Int) (q : QueryHashes) (acc : Option (Nat × BestMatch))
    (pr : StoredImage × Nat) :
    mergeBest t q acc (some pr) =
      if (pr.2 : Int) ≤ t ∧ beatsAcc acc pr.2 = true then
        some (pr.2, mkBestMatch pr.1 pr.2 (argminAlg (candidateDistances q pr.1) pr.2))
      else acc := rfl

lemma scanStep_none (t : Int) (q : QueryHashes) (acc : Option (Nat × BestMatch))
    (img : StoredImage) (h : candMin q img = none) : scanStep t q acc img = acc := by
  unfold scanStep
  rw [h]

lemma scanStep_some (t : Int) (q : QueryHashes) (acc : Option (Nat × BestMatch))
    (img : StoredImage) (d : Nat) (h : candMin q img = some d) :
    scanStep t q acc img =
      if (d : Int) ≤ t ∧ beatsAcc acc d = true then
        some (d, mkBestMatch img d (argminAlg (candidateDistances q img) d))
      else acc := by
  unfold scanStep
  rw [h]

lemma specBest_cons_none (q : QueryHashes) (img : StoredImage) (rest : List StoredImage)
    (h : candMin q img = none) : specBest q (img :: rest) = specBest q rest := by
  show (match candMin q img, specBest q rest with
    | none, r => r
    | some d, none => some (img, d)
    | some d, some pr => if d ≤ pr.2 then some (img, d) else pr) = specBest q rest
  rw [h]

lemma specBest_cons_some_none (q : QueryHashes) (img : StoredImage)
    (rest : List StoredImage) (d : Nat) (h : candMin q img = some d)
    (h2 : specBest q rest = none) : specBest q (img :: rest) = some (img, d) := by
  unfold specBest
  rw [h, h2]

lemma specBest_cons_some_some (q : QueryHashes) (img : StoredImage)
    (rest : List StoredImage) (d : Nat) (pr : StoredImage × Nat)
    (h : candMin q img = some d) (h2 : specBest q rest = some pr) :
    specBest q (img :: rest) = if d ≤ pr.2 then some (img, d) else pr := by
  unfold specBest
  rw [h, h2]

lemma scanLoop_spec (t : Int) (q : QueryHashes) (stored : List StoredImage) :
    ∀ acc : Option (Nat × BestMatch),
    stored.foldl (scanStep t q) acc = mergeBest t q acc (specBest q stored) := by
  induction stored with
  | nil => intro acc; rfl
  | cons img rest ih =>
    intro acc
    rw [List.foldl_cons, ih (scanStep t q acc img)]
    cases hcm : candMin q img with
    | none =>
      rw [scanStep_none t q acc img hcm, specBest_cons_none q img rest hcm]
    | some d =>
      rw [scanStep_some t q acc img d hcm]
      cases hsb : specBest q rest with
      | none =>
        rw [specBest_cons_some_none q img rest d hcm hsb, mergeBest_none,
          mergeBest_some]
      | some pr =>
        obtain ⟨i2, d2⟩ := pr
        rw [specBest_cons_some_some q img rest d (i2, d2) hcm hsb]
        by_cases hcmp : d ≤ d2
        · rw [if_pos hcmp]
          by_cases hA : (d : Int) ≤ t ∧ beatsAcc acc d = true
          · rw [if_pos hA, mergeBest_some, mergeBest_some, if_pos hA]
            have hb : beatsAcc
                (some (d, mkBestMatch img d (argminAlg (candidateDistances q img) d))) d2 =
                false := by
              rw [beatsAcc_some_eq]
              exact decide_eq_false (by omega)
            rw [if_neg ?hx]
            case hx =>
              rintro ⟨-, hc⟩
              rw [hb] at hc
              exact Bool.noConfusion hc
          · rw [if_neg hA, mergeBest_some, mergeBest_some, if_neg hA]
            have hnc : ¬((d2 : Int) ≤ t ∧ beatsAcc acc d2 = true) := by
              rintro ⟨h1, h2⟩
              refine hA ⟨le_trans ?_ h1, beatsAcc_mono acc d d2 hcmp h2⟩
              exact_mod_cast hcmp
            rw [if_neg hnc]
        · rw [if_neg hcmp]
          have hd2d : d2 < d := Nat.lt_of_not_le hcmp
          by_cases hA : (d : Int) ≤ t ∧ beatsAcc acc d = true
          · rw [if_pos hA, mergeBest_some, mergeBest_some]
            have hb : beatsAcc
                (some (d, mkBestMatch img d (argminAlg (candidateDistances q img) d))) d2 =
                true := by
              rw [beatsAcc_some_eq]
              exact decide_eq_true hd2d
            have ht2 : (d2 : Int) ≤ t :=
              le_trans (by exact_mod_cast Nat.le_of_lt hd2d) hA.1
            rw [if_pos ⟨ht2, hb⟩,
              if_pos ⟨ht2, beatsAcc_mono acc d2 d (Nat.le_of_lt hd2d) hA.2⟩]
          · rw [if_neg hA]

/-- C1: for every stored record list, query fingerprint set and threshold,
the scan returns exactly the outcome described by the spec: each
candidate's minimum distance over the algorithms present on both sides is
taken, the candidate with the globally smallest minimum wins (first
encountered wins ties, in fetch order), the result is MatchFound with that
candidate exactly when its minimum distance is at most the threshold
(inclusive), and NoMatch otherwise. -/
theorem scan_selects_global_minimum (stored : List StoredImage) (q : QueryHashes)
    (t : Int) : scan_image_for_url stored q t = specOutcome t q stored := by
  have hloop : scanLoop t q stored = mergeBest t q none (specBest q stored) :=
    scanLoop_spec t q stored none
  unfold scan_image_for_url
  rw [hloop]
  cases hsb : specBest q stored with
  | none =>
    rw [mergeBest_none]
    unfold specOutcome
    rw [hsb]
  | some pr =>
    rw [mergeBest_some]
    simp only [specOutcome, hsb]
    by_cases ht : (pr.2 : Int) ≤ t
    · rw [if_pos (⟨ht, rfl⟩ : (pr.2 : Int) ≤ t ∧ beatsAcc none pr.2 = true), if_pos ht]
      rfl
    · rw [if_neg (fun hc => ht hc.1), if_neg ht]

lemma scanLoop_shape (t : Int) (q : QueryHashes) (stored : List StoredImage) :
    ∀ acc : Option (Nat × BestMatch),
    (∀ bd, acc = some bd → bd.2.distance = bd.1 ∧
      bd.2.similarity_percentage = max 0 (100 - (bd.1 : Int) * 10)) →
    ∀ bd, stored.foldl (scanStep t q) acc = some bd →
      bd.2.distance = bd.1 ∧
      bd.2.similarity_percentage = max 0 (100 - (bd.1 : Int) * 10) := by
  induction stored with
  | nil => intro acc hacc bd h; exact hacc bd h
  | cons img rest ih =>
    intro acc hacc bd h
    rw [List.foldl_cons] at h
    refine ih (scanStep t q acc img) ?_ bd h
    intro bd2 h2
    cases hcm : candMin q img with
    | none =>
      rw [scanStep_none t q acc img hcm] at h2
      exact hacc bd2 h2
    | some d =>
      rw [scanStep_some t q acc img d hcm] at h2
      by_cases hc : (d : Int) ≤ t ∧ beatsAcc acc d = true
      · rw [if_pos hc] at h2
        injection h2 with h3
        rw [← h3]
        exact ⟨rfl, rfl⟩
      · rw [if_neg hc] at h2
        exact hacc bd2 h2

/-- C8: whenever the scan reports MatchFound, the reported similarity score
equals `max 0 (100 - distance * 10)` in exact integer arithmetic; it is
never negative, and it is 0 for every distance of at least 10. -/
theorem similarity_score_formula (stored : List StoredImage) (q : QueryHashes)
    (t : Int) (bm : BestMatch) (r : String) (n : Nat)
    (h : scan_image_for_url stored q t = ScanOutcome.matchFound bm r n) :
    bm.similarity_percentage = max 0 (100 - (bm.distance : Int) * 10) ∧
    0 ≤ bm.similarity_percentage ∧
    (10 ≤ (bm.distance : Int) → bm.similarity_percentage = 0) := by
  unfold scan_image_for_url at h
  cases hl : scanLoop t q stored with
  | none =>
    rw [hl] at h
    exact ScanOutcome.noConfusion h
  | some bd =>
    rw [hl] at h
    injection h with h1 h2 h3
    obtain ⟨hd, hs⟩ := scanLoop_shape t q stored none
      (fun bd2 hbd => Option.noConfusion hbd) bd hl
    rw [← h1]
    refine ⟨by rw [hs, hd], by rw [hs]; exact le_max_left 0 _, ?_⟩
    intro h10
    rw [hd] at h10
    rw [hs]
    exact max_eq_left (by omega)

/-- Witness for C8 at a concrete store and query with a distance-0 match at
threshold 10. -/
theorem similarity_score_formula_witness :
    scan_image_for_url [img0] q0 10 =
      ScanOutcome.matchFound (mkBestMatch img0 0 "dhash") "u0" 1 ∧
    ((mkBestMatch img0 0 "dhash").similarity_percentage =
        max 0 (100 - ((mkBestMatch img0 0 "dhash").distance : Int) * 10) ∧
      0 ≤ (mkBestMatch img0 0 "dhash").similarity_percentage ∧
      (10 ≤ ((mkBestMatch img0 0 "dhash").distance : Int) →
        (mkBestMatch img0 0 "dhash").similarity_percentage = 0)) :=
  ⟨by decide,
    similarity_score_formula [img0] q0 10 (mkBestMatch img0 0 "dhash") "u0" 1 (by decide)⟩

lemma scanLoop_none_of_neg (t : Int) (q : QueryHashes) (ht : t < 0)
    (stored : List StoredImage) : scanLoop t q stored = none := by
  unfold scanLoop
  induction stored with
  | nil => rfl
  | cons img rest ih =>
    rw [List.foldl_cons]
    have hstep : scanStep t q none img = none := by
      cases hcm : candMin q img with
      | none => exact scanStep_none t q none img hcm
      | some d =>
        rw [scanStep_some t q none img d hcm]
        rw [if_neg ?hx]
        case hx =>
          rintro ⟨h1, -⟩
          have h0 : (0 : Int) ≤ (d : Int) := Int.natCast_nonneg d
          omega
    rw [hstep]
    exact ih

/-- C10: with any negative threshold the scan reports NoMatch regardless
of the stored records and the query, since every computed distance is a
non-negative integer and the match test is an inclusive comparison with
the threshold. -/
theorem negative_threshold_no_match (stored : List StoredImage) (q : QueryHashes)
    (t : Int) (ht : t < 0) :
    scan_image_for_url stored q t = ScanOutcome.noMatch stored.length := by
  unfold scan_image_for_url
  rw [scanLoop_none_of_neg t q ht stored]

/-- Witness for C10 at threshold -1 against a store containing a record at
distance 0 from the query. -/
theorem negative_threshold_no_match_witness :
    (-1 : Int) < 0 ∧ candMin q0 img0 = some 0 ∧
    scan_image_for_url [img0] q0 (-1) = ScanOutcome.noMatch 1 :=
  ⟨by decide, by decide, negative_threshold_no_match [img0] q0 (-1) (by decide)⟩

lemma find?_append_of_none (p : StoredImage → Bool) (l1 l2 : List StoredImage)
    (h : l1.find? p = none) : (l1 ++ l2).find? p = l2.find? p := by
  induction l1 with
  | nil => rfl
  | cons r rs ih =>
    have hall := List.find?_eq_none.mp h
    have hr : ¬p r = true := hall r (List.mem_cons_self r rs)
    rw [List.cons_append, List.find?_cons_of_neg _ hr]
    exact ih (List.find?_eq_none.mpr fun x hx => hall x (List.mem_cons_of_mem r hx))

lemma detectType_error_status (m : Option String) (e : PyError)
    (h : detectType m = Except.error e) : e.status = 400 := by
  cases m with
  | none =>
    simp only [detectType] at h
    injection h with h1
    rw [← h1]
  | some t =>
    simp only [detectType] at h
    by_cases hmem : t ∈ allowed_mime_types
    · rw [if_pos hmem] at h
      exact Except.noConfusion h
    · rw [if_neg hmem] at h
      injection h with h1
      rw [← h1]

lemma validate_ok_shape (env : ExternalFns) (content : List Nat) (res : ProcessResult)
    (hv : validate_and_process_image env content = Except.ok res) :
    res.file_hash = env.sha256 content ∧ res.file_size = content.length := by
  unfold validate_and_process_image at hv
  by_cases hsize : content.length > max_file_size
  · rw [if_pos hsize] at hv
    exact Except.noConfusion hv
  · rw [if_neg hsize] at hv
    cases hd : detectType (env.magicSniff content) with
    | error e =>
      rw [hd] at hv
      exact Except.noConfusion hv
    | ok t =>
      rw [hd] at hv
      cases hp : env.decodePipe content with
      | error msg =>
        rw [hp] at hv
        exact Except.noConfusion hv
      | ok img =>
        rw [hp] at hv
        injection hv with h1
        rw [← h1]
        exact ⟨rfl, rfl⟩

lemma validate_error_status (env : ExternalFns) (content : List Nat) (e : PyError)
    (hv : validate_and_process_image env content = Except.error e) :
    e.status = 413 ∨ e.status = 400 := by
  unfold validate_and_process_image at hv
  by_cases hsize : content.length > max_file_size
  · rw [if_pos hsize] at hv
    injection hv with h1
    rw [← h1]
    left
    rfl
  · rw [if_neg hsize] at hv
    cases hd : detectType (env.magicSniff content) with
    | error e2 =>
      rw [hd] at hv
      injection hv with h1
      rw [← h1]
      right
      exact detectType_error_status (env.magicSniff content) e2 hd
    | ok t =>
      rw [hd] at hv
      cases hp : env.decodePipe content with
      | error msg =>
        rw [hp] at hv
        injection hv with h1
        rw [← h1]
        right
        rfl
      | ok img =>
        rw [hp] at hv
        exact Except.noConfusion hv

lemma updateFirst_length (s : List StoredImage) (h url : String) (now : Nat) :
    (updateFirst s h url now).length = s.length := by
  induction s with
  | nil => rfl
  | cons r rs ih =>
    unfold updateFirst
    by_cases hr : r.file_hash = h
    · rw [if_pos hr]
      rfl
    · rw [if_neg hr]
      simp [ih]

lemma updateFirst_map_file_hash (s : List StoredImage) (h url : String) (now : Nat) :
    (updateFirst s h url now).map (fun r => r.file_hash) =
      s.map (fun r => r.file_hash) := by
  induction s with
  | nil => rfl
  | cons r rs ih =>
    unfold updateFirst
    by_cases hr : r.file_hash = h
    · rw [if_pos hr]
      simp
    · rw [if_neg hr]
      simp [ih]

lemma updateFirst_decomp (h url : String) (now : Nat) :
    ∀ (s : List StoredImage) (ex : StoredImage),
    s.find? (fun r => r.file_hash == h) = some ex →
    ∃ t1 t2, s = t1 ++ ex :: t2 ∧ (∀ r ∈ t1, r.file_hash ≠ h) ∧ ex.file_hash = h ∧
      updateFirst s h url now =
        t1 ++ { ex with url := url, updated_at := some now } :: t2 := by
  intro s
  induction s with
  | nil => intro ex hex; exact Option.noConfusion hex
  | cons r rs ih =>
    intro ex hex
    by_cases hr : r.file_hash = h
    · rw [List.find?_cons_of_pos _ (by simp [hr])] at hex
      injection hex with h1
      refine ⟨[], rs, by rw [h1]; rfl, by simp, by rw [← h1]; exact hr, ?_⟩
      unfold updateFirst
      rw [if_pos hr, h1]
      rfl
    · rw [List.find?_cons_of_neg _ (by simp [hr])] at hex
      obtain ⟨t1, t2, hs, hall, hexh, hupd⟩ := ih ex hex
      refine ⟨r :: t1, t2, by rw [List.cons_append, hs], ?_, hexh, ?_⟩
      · intro x hx
        rcases List.mem_cons.mp hx with hx | hx
        · rw [hx]; exact hr
        · exact hall x hx
      · unfold updateFirst
        rw [if_neg hr, hupd]
        rfl

lemma relink_updated (env : ExternalFns) (freshId : String) (now : Nat)
    (store : List StoredImage) (url : String) (filename : Option String)
    (content : List Nat) (id1 : String) (hs : QueryHashes) (s1 : List StoredImage)
    (hl : link_image_to_url env freshId now store url filename content =
      (Except.ok (LinkOutcome.created id1 url hs), s1)) :
    ∀ (freshId2 : String) (now2 : Nat) (url2 : String) (filename2 : Option String),
    ∃ s2, link_image_to_url env freshId2 now2 s1 url2 filename2 content =
        (Except.ok (LinkOutcome.updated id1 url2), s2) ∧
      s2.length = s1.length ∧ ∃ r2 ∈ s2, r2.id = id1 ∧ r2.url = url2 := by
  intro freshId2 now2 url2 filename2
  cases hv : validate_and_process_image env content with
  | error e =>
    simp only [link_image_to_url, hv] at hl
    injection hl with hA hB
    exact Except.noConfusion hA
  | ok res =>
    simp only [link_image_to_url, hv] at hl
    cases hfind : store.find? (fun r => r.file_hash == res.file_hash) with
    | some ex =>
      rw [hfind] at hl
      injection hl with hA hB
      injection hA with hC
      exact LinkOutcome.noConfusion hC
    | none =>
      rw [hfind] at hl
      injection hl with hA hB
      injection hA with hC
      injection hC with hid hurl hhs
      subst hid
      have hfind2 : s1.find? (fun r => r.file_hash == res.file_hash) =
          some (mkRecord freshId filename url res now) := by
        rw [← hB, find?_append_of_none _ store _ hfind,
          List.find?_cons_of_pos _ (by simp [mkRecord])]
      simp only [link_image_to_url, hv]
      rw [hfind2]
      obtain ⟨t1, t2, hs1, hall, hexh, hupd⟩ :=
        updateFirst_decomp res.file_hash url2 now2 s1
          (mkRecord freshId filename url res now) hfind2
      refine ⟨updateFirst s1 res.file_hash url2 now2, rfl,
        updateFirst_length s1 res.file_hash url2 now2, ?_⟩
      refine ⟨{ mkRecord freshId filename url res now with
        url := url2, updated_at := some now2 }, ?_, rfl, rfl⟩
      rw [hupd]
      exact List.mem_append_right t1 (List.mem_cons_self _ t2)

/-- C7: whenever the ingest validator fails, the link endpoint re-raises
exactly that failure (the statuses being 413 for an oversized payload and
400 otherwise) and the collection is left exactly as it was. -/
theorem link_propagates_validation_failure (env : ExternalFns) (freshId : String)
    (now : Nat) (store : List StoredImage) (url : String) (filename : Option String)
    (content : List Nat) (e : PyError)
    (hv : validate_and_process_image env content = Except.error e) :
    link_image_to_url env freshId now store url filename content =
      (Except.error e, store) ∧
    (e.status = 413 ∨ e.status = 400) := by
  refine ⟨?_, validate_error_status env content e hv⟩
  unfold link_image_to_url
  rw [hv]

/-- Witness for C7: a MIME-sniffing failure on concrete bytes propagates
through link and leaves the (empty) collection untouched. -/
theorem link_propagates_validation_failure_witness :
    validate_and_process_image envBad content0 =
      Except.error (PyError.mk 400 "Unable to determine file type") ∧
    (link_image_to_url envBad "i1" 7 [] "u1" none content0 =
      (Except.error (PyError.mk 400 "Unable to determine file type"), []) ∧
     ((PyError.mk 400 "Unable to determine file type").status = 413 ∨
      (PyError.mk 400 "Unable to determine file type").status = 400)) :=
  ⟨rfl, link_propagates_validation_failure envBad "i1" 7 [] "u1" none content0
    (PyError.mk 400 "Unable to determine file type") rfl⟩

/-- C4: a successful link performs exactly one collection write.  When a
record with the query's checksum already exists, the call returns Updated
with that record's id and only rewrites in place (same length, no insert);
when none exists, the call appends exactly one fresh record and returns
Created with the fresh id.  Linking the same raw bytes a second time with
a different URL therefore yields Updated with the same image id and the
second URL in effect. -/
theorem link_exactly_one_write (env : ExternalFns) (freshId : String) (now : Nat)
    (store : List StoredImage) (url : String) (filename : Option String)
    (content : List Nat) (res : ProcessResult)
    (hv : validate_and_process_image env content = Except.ok res) :
    (∀ ex, store.find? (fun r => r.file_hash == res.file_hash) = some ex →
      link_image_to_url env freshId now store url filename content =
        (Except.ok (LinkOutcome.updated ex.id url),
          updateFirst store res.file_hash url now) ∧
      (updateFirst store res.file_hash url now).length = store.length) ∧
    (store.find? (fun r => r.file_hash == res.file_hash) = none →
      link_image_to_url env freshId now store url filename content =
        (Except.ok (LinkOutcome.created freshId url res.hashes),
          store ++ [mkRecord freshId filename url res now])) ∧
    (∀ id1 hs s1, link_image_to_url env freshId now store url filename content =
        (Except.ok (LinkOutcome.created id1 url hs), s1) →
      ∀ (freshId2 : String) (now2 : Nat) (url2 : String) (filename2 : Option String),
      ∃ s2, link_image_to_url env freshId2 now2 s1 url2 filename2 content =
          (Except.ok (LinkOutcome.updated id1 url2), s2) ∧
        s2.length = s1.length ∧ ∃ r2 ∈ s2, r2.id = id1 ∧ r2.url = url2) := by
  refine ⟨?_, ?_, ?_⟩
  · intro ex hfind
    refine ⟨?_, updateFirst_length store res.file_hash url now⟩
    simp only [link_image_to_url, hv]
    rw [hfind]
  · intro hfind
    simp only [link_image_to_url, hv]
    rw [hfind]
  · intro id1 hs s1 hl freshId2 now2 url2 filename2
    exact relink_updated env freshId now store url filename content id1 hs s1 hl
      freshId2 now2 url2 filename2

/-- Witness for C4: linking concrete bytes into the empty collection
creates one record with the fresh id. -/
theorem link_exactly_one_write_witness :
    validate_and_process_image env0 content0 = Except.ok res0 ∧
    ([] : List StoredImage).find? (fun r => r.file_hash == res0.file_hash) = none ∧
    link_image_to_url env0 "i1" 7 [] "u1" none content0 =
      (Except.ok (LinkOutcome.created "i1" "u1" res0.hashes),
        [] ++ [mkRecord "i1" none "u1" res0 7]) :=
  ⟨rfl, rfl,
    (link_exactly_one_write env0 "i1" 7 [] "u1" none content0 res0 rfl).2.1 rfl⟩

/-- C6: when link takes the Updated path, the collection is changed only at
the first record whose checksum matches, and that record changes only in
its `url` and `updated_at` fields; every other record — and every other
field of the updated record — is untouched. -/
theorem link_update_frame (env : ExternalFns) (freshId : String) (now : Nat)
    (store : List StoredImage) (url : String) (filename : Option String)
    (content : List Nat) (rid u2 : String) (ns : List StoredImage)
    (hl : link_image_to_url env freshId now store url filename content =
      (Except.ok (LinkOutcome.updated rid u2), ns)) :
    ∃ res, validate_and_process_image env content = Except.ok res ∧
    ∃ t1 ex t2, store = t1 ++ ex :: t2 ∧
      (∀ r ∈ t1, r.file_hash ≠ res.file_hash) ∧
      ex.file_hash = res.file_hash ∧
      ns = t1 ++ { ex with url := url, updated_at := some now } :: t2 ∧
      rid = ex.id ∧ u2 = url := by
  cases hv : validate_and_process_image env content with
  | error e =>
    simp only [link_image_to_url, hv] at hl
    injection hl with hA hB
    exact Except.noConfusion hA
  | ok res =>
    simp only [link_image_to_url, hv] at hl
    cases hfind : store.find? (fun r => r.file_hash == res.file_hash) with
    | none =>
      rw [hfind] at hl
      injection hl with hA hB
      injection hA with hC
      exact LinkOutcome.noConfusion hC
    | some ex =>
      rw [hfind] at hl
      injection hl with hA hB
      injection hA with hC
      injection hC with hid hurl
      obtain ⟨t1, t2, hsplit, hall, hexh, hupd⟩ :=
        updateFirst_decomp res.file_hash url now store ex hfind
      exact ⟨res, rfl, t1, ex, t2, hsplit, hall, hexh, by rw [← hB, hupd],
        hid.symm, hurl.symm⟩

/-- Witness for C6: re-linking the same bytes against a one-record
collection updates that record in place. -/
theorem link_update_frame_witness :
    link_image_to_url env0 "i9" 9 [mkRecord "i1" none "u1" res0 7] "u2" none content0 =
      (Except.ok (LinkOutcome.updated "i1" "u2"),
        [{ mkRecord "i1" none "u1" res0 7 with url := "u2", updated_at := some 9 }]) ∧
    (∃ res, validate_and_process_image env0 content0 = Except.ok res ∧
     ∃ t1 ex t2, [mkRecord "i1" none "u1" res0 7] = t1 ++ ex :: t2 ∧
      (∀ r ∈ t1, r.file_hash ≠ res.file_hash) ∧
      ex.file_hash = res.file_hash ∧
      [{ mkRecord "i1" none "u1" res0 7 with url := "u2", updated_at := some 9 }] =
        t1 ++ { ex with url := "u2", updated_at := some 9 } :: t2 ∧
      "i1" = ex.id ∧ "u2" = "u2") :=
  ⟨rfl, link_update_frame env0 "i9" 9 [mkRecord "i1" none "u1" res0 7] "u2" none
    content0 "i1" "u2"
    [{ mkRecord "i1" none "u1" res0 7 with url := "u2", updated_at := some 9 }] rfl⟩

/-- C9: the stored checksum is the digest function applied to the original
raw bytes, independent of what the decode/normalize pipeline produced;
hence byte-identical uploads always produce the same checksum and a second
link of the same bytes dedups into the existing record instead of
inserting. -/
theorem checksum_of_raw_bytes (env : ExternalFns) (content : List Nat)
    (res : ProcessResult)
    (hv : validate_and_process_image env content = Except.ok res) :
    res.file_hash = env.sha256 content ∧
    (∀ env2 res2, env2.sha256 = env.sha256 →
      validate_and_process_image env2 content = Except.ok res2 →
      res2.file_hash = res.file_hash) ∧
    (∀ (freshId : String) (now : Nat) (store : List StoredImage) (url : String)
        (filename : Option String) (id1 : String) (hs : QueryHashes)
        (s1 : List StoredImage),
      link_image_to_url env freshId now store url filename content =
        (Except.ok (LinkOutcome.created id1 url hs), s1) →
      ∀ (freshId2 : String) (now2 : Nat) (url2 : String) (filename2 : Option String),
      ∃ s2, link_image_to_url env freshId2 now2 s1 url2 filename2 content =
          (Except.ok (LinkOutcome.updated id1 url2), s2) ∧ s2.length = s1.length) := by
  refine ⟨(validate_ok_shape env content res hv).1, ?_, ?_⟩
  · intro env2 res2 heq hv2
    rw [(validate_ok_shape env2 content res2 hv2).1, heq,
      (validate_ok_shape env content res hv).1]
  · intro freshId now store url filename id1 hs s1 hl freshId2 now2 url2 filename2
    obtain ⟨s2, h1, h2, -⟩ := relink_updated env freshId now store url filename
      content id1 hs s1 hl freshId2 now2 url2 filename2
    exact ⟨s2, h1, h2⟩

/-- Witness for C9 at concrete bytes: the checksum field is the digest of
the raw bytes. -/
theorem checksum_of_raw_bytes_witness :
    validate_and_process_image env0 content0 = Except.ok res0 ∧
    res0.file_hash = env0.sha256 content0 :=
  ⟨rfl, (checksum_of_raw_bytes env0 content0 res0 rfl).1⟩

/-- C5: in every collection state reachable from the empty collection by
link and delete calls, the content checksums of the records are pairwise
distinct: link inserts only after `find_one` returns nothing for the new
checksum, never rewrites any `file_hash`, and delete only removes
records. -/
theorem checksum_unique_invariant (s : List StoredImage) (hs : Reachable s) :
    (s.map (fun r => r.file_hash)).Nodup := by
  induction hs with
  | empty => simp
  | link env freshId now s1 url filename content out s2 hr heq ih =>
    cases hv : validate_and_process_image env content with
    | error e =>
      simp only [link_image_to_url, hv] at heq
      injection heq with h1 h2
      rw [← h2]
      exact ih
    | ok res =>
      simp only [link_image_to_url, hv] at heq
      cases hfind : s1.find? (fun r => r.file_hash == res.file_hash) with
      | some ex =>
        rw [hfind] at heq
        injection heq with h1 h2
        rw [← h2, updateFirst_map_file_hash]
        exact ih
      | none =>
        rw [hfind] at heq
        injection heq with h1 h2
        rw [← h2, List.map_append]
        refine List.nodup_append.mpr ⟨ih, by simp, ?_⟩
        intro a ha hb
        simp only [List.map_cons, List.map_nil, List.mem_singleton] at hb
        obtain ⟨r, hrmem, hrfh⟩ := List.mem_map.mp ha
        have hnone := List.find?_eq_none.mp hfind r hrmem
        apply hnone
        rw [beq_iff_eq, hrfh, hb]
        rfl
  | del s1 image_id out s2 hr heq ih =>
    unfold delete_stored_image at heq
    by_cases hany : s1.any (fun r => r.id == image_id) = true
    · rw [if_pos hany] at heq
      injection heq with h1 h2
      rw [← h2]
      exact List.Nodup.sublist
        (List.Sublist.map (fun r => r.file_hash) (List.eraseP_sublist s1)) ih
    · rw [if_neg hany] at heq
      injection heq with h1 h2
      rw [← h2]
      exact ih

/-- Witness for C5 at a concrete reachable one-record state. -/
theorem checksum_unique_invariant_witness :
    Reachable (([] : List StoredImage) ++ [mkRecord "i1" none "u1" res0 7]) ∧
    (((([] : List StoredImage) ++ [mkRecord "i1" none "u1" res0 7]).map
      (fun r => r.file_hash)).Nodup) := by
  have hr : Reachable (([] : List StoredImage) ++ [mkRecord "i1" none "u1" res0 7]) :=
    Reachable.link env0 "i1" 7 [] "u1" none content0
      (Except.ok (LinkOutcome.created "i1" "u1" res0.hashes))
      (([] : List StoredImage) ++ [mkRecord "i1" none "u1" res0 7]) Reachable.empty rfl
  exact ⟨hr,
    checksum_unique_invariant (([] : List StoredImage) ++ [mkRecord "i1" none "u1" res0 7]) hr⟩
